import Mathlib

/-!
Shallow embedding of the AST-construction code of the pest book examples:
the jlang verb/adverb compiler (src/examples/jlang-parser/src/main.rs) and
the Pratt expression builders of the two calculator examples
(src/examples/pest-calculator/src/main.rs, src/examples/calculator/src/main.rs).

Rust panics (`panic!`-style aborts, failed `assert_eq!`, `.unwrap()` on `Err`/`None`)
are modelled as `Option.none`; a returned AST node is `Option.some`.
-/

namespace JLang

/-- Monadic verbs of the jlang AST (main.rs lines 14-23). -/
inductive MonadicVerb where
  | Increment | Square | Negate | Reciprocal | Tally | Ceiling | ShapeOf
  deriving DecidableEq, Repr

/-- Dyadic verbs of the jlang AST (main.rs lines 25-40). -/
inductive DyadicVerb where
  | Plus | Times | LessThan | LargerThan | Equal | Minus | Divide | Power
  | Residue | Copy | LargerOf | LargerOrEqual | Shape
  deriving DecidableEq, Repr

/-- Model of an `f64` value as produced by `str::parse::<f64>` on the decimal
literal texts of the grammar: a sign bit plus an exact non-negative rational
magnitude.  IEEE `-0.0` is `⟨true, 0⟩`, distinct from `+0.0 = ⟨false, 0⟩`
as a representation even though the two compare equal with `==`.
The magnitude is kept exact (no rounding); only sign handling and zero tests
matter for the properties proved below, and a decimal text is IEEE-zero only
if its mantissa digits are all zero or it underflows, in which case both the
exact and the rounded magnitude are handled by the same sign-application path
(the sign is applied exactly when the parsed value is nonzero). -/
structure F64 where
  neg : Bool
  mag : ℚ
  deriving DecidableEq, Repr

/-- The jlang AST (main.rs lines 42-54).  `Str` stores the bytes of the
`CString`, here the character list (interior NUL excluded at construction). -/
inductive AstNode where
  | Print (expr : AstNode)
  | Integer (n : Int)
  | DoublePrecisionFloat (f : F64)
  | MonadicOp (verb : MonadicVerb) (expr : AstNode)
  | DyadicOp (verb : DyadicVerb) (lhs rhs : AstNode)
  | Terms (ts : List AstNode)
  | Reduce (verb : DyadicVerb) (expr : AstNode)
  | IsGlobal (ident : String) (expr : AstNode)
  | Ident (name : String)
  | Str (s : List Char)
  deriving Repr

/-- Rule labels of the jlang grammar that the compiler inspects. -/
inductive JRule where
  | program | expr | monadicExpr | dyadicExpr | terms | assgmtExpr | string
  | integer | decimal | ident | verb | adverb | other
  deriving DecidableEq, Repr

/-- A pest `Pair`: rule label, matched text (`as_str`), ordered children
(`into_inner`). -/
inductive JPair where
  | mk (rule : JRule) (text : String) (children : List JPair)
  deriving Repr

def JPair.rule : JPair → JRule
  | .mk r _ _ => r

def JPair.text : JPair → String
  | .mk _ t _ => t

def JPair.children : JPair → List JPair
  | .mk _ _ c => c

/-- Value of a digit string, most significant first (no validation). -/
def digitsNat (cs : List Char) : Nat :=
  cs.foldl (fun acc c => acc * 10 + (c.toNat - 48)) 0

/-- Digit run of `str::parse::<i32>` after the optional sign: one or more
ASCII digits, value within range; `negSign` selects the `i32` bound. -/
def parseI32Core (ds : List Char) (negSign : Bool) : Option Int :=
  if ds ≠ [] ∧ ds.all Char.isDigit then
    if negSign then
      if digitsNat ds ≤ 2147483648 then some (-(digitsNat ds : Int)) else none
    else
      if digitsNat ds ≤ 2147483647 then some (digitsNat ds : Int) else none
  else none

/-- Model of Rust `str::parse::<i32>`: optional `+`/`-` sign, then one or
more ASCII digits, value within the `i32` range; anything else is `Err`
(modelled `none`).  Underscores are NOT accepted by Rust integer parsing. -/
def parseI32 (s : String) : Option Int :=
  match s.data with
  | [] => none
  | c :: rest =>
      if c = '+' then parseI32Core rest false
      else if c = '-' then parseI32Core rest true
      else parseI32Core (c :: rest) false

/-- The `Rule::integer` branch of `build_ast_from_term` (main.rs lines
229-237): a leading `_` sets sign `-1` and is stripped, the remainder goes
through `istr.parse::<i32>().unwrap()`, and the result is `sign * integer`.
An empty text panics on the `&istr[..1]` slice; sign-multiplication overflow
(only at `i32::MIN`) panics in a debug build. -/
def buildInteger (istr : String) : Option AstNode :=
  match istr.data with
  | [] => none
  | c :: rest =>
      if c = '_' then
        (parseI32 (String.mk rest)).bind fun n =>
          if n = -2147483648 then none else some (.Integer (-1 * n))
      else (parseI32 istr).map fun n => .Integer n

/-- Exponent suffix of a float text: empty, or `e`/`E` with an optionally
signed nonempty digit run. -/
def parseExpSuffix : List Char → Option Int
  | [] => some 0
  | e :: rest =>
      if e = 'e' ∨ e = 'E' then
        match rest with
        | [] => none
        | c :: ds =>
            if c = '+' then
              if ds ≠ [] ∧ ds.all Char.isDigit then some (digitsNat ds) else none
            else if c = '-' then
              if ds ≠ [] ∧ ds.all Char.isDigit then some (-(digitsNat ds : Int)) else none
            else
              if (c :: ds).all Char.isDigit then some (digitsNat (c :: ds)) else none
      else none

/-- Unsigned part of `str::parse::<f64>`: digits, optional `.` fraction,
optional exponent; exact magnitude `mantissa * 10^exponent`, sign bit
`neg`. -/
def parseF64Mag (cs : List Char) (neg : Bool) : Option F64 :=
  let ip := cs.takeWhile Char.isDigit
  let r1 := cs.dropWhile Char.isDigit
  let fp :=
    match r1 with
    | '.' :: r => r.takeWhile Char.isDigit
    | _ => ([] : List Char)
  let r2 :=
    match r1 with
    | '.' :: r => r.dropWhile Char.isDigit
    | _ => r1
  if ip = [] ∧ fp = [] then none
  else
    (parseExpSuffix r2).map fun e =>
      { neg := neg
        mag := ((digitsNat ip : ℚ) + (digitsNat fp : ℚ) / (10 : ℚ) ^ fp.length)
                 * (10 : ℚ) ^ (e : Int) }

/-- Model of Rust `str::parse::<f64>` on the finite decimal forms
`[+-]? digits [. digits?]? ([eE][+-]? digits)?` (at least one mantissa
digit): sign bit from the leading sign, exact magnitude
`mantissa * 10^exponent`.  The `inf`/`nan` spellings never occur in a
grammar token and are not modelled. -/
def parseF64 (s : String) : Option F64 :=
  match s.data with
  | [] => none
  | c :: rest =>
      if c = '-' then parseF64Mag rest true
      else if c = '+' then parseF64Mag rest false
      else parseF64Mag (c :: rest) false

/-- `flt *= sign` guarded by `flt != 0.0` (main.rs lines 244-248): IEEE `!=`
ignores the sign of zero, so the test is on the magnitude; multiplying by
`-1.0` flips the sign bit. -/
def negIfNonzero (f : F64) : F64 :=
  if f.mag ≠ 0 then { neg := !f.neg, mag := f.mag } else f

/-- The `Rule::decimal` branch of `build_ast_from_term` (main.rs lines
238-250): a leading `_` sets sign `-1.0` and is stripped, the remainder goes
through `dstr.parse::<f64>().unwrap()`, and the sign is applied only when the
parsed value is nonzero.  In the no-underscore branch the guarded `flt *= 1.0`
is the identity. -/
def buildDecimal (dstr : String) : Option AstNode :=
  match dstr.data with
  | [] => none
  | c :: rest =>
      if c = '_' then
        (parseF64 (String.mk rest)).map fun f => .DoublePrecisionFloat (negIfNonzero f)
      else (parseF64 dstr).map fun f => .DoublePrecisionFloat f

/-- Modelled from the spec: the shape constraint the grammar (j.pest, not
under src/) puts on numeric literal tokens that matters here — negation is
written with the `_` sentinel, so the mantissa never starts with the minus
glyph (a `-` may still occur later, inside the exponent). -/
def noMinusMantissa (s : String) : Bool :=
  match s.data with
  | '_' :: '-' :: _ => false
  | '-' :: _ => false
  | _ => true

/-- `parse_dyadic_action` (main.rs lines 130-159): the first child of the
action pair is the verb, the rest are adverbs; `assert_eq!(adverbs.len(), 0)`
fires before the verb lookup, so any non-empty adverb list aborts for every
verb symbol; then a fixed 1:1 symbol table, unknown symbols abort. -/
def parseDyadicAction (action : JPair) (lhs rhs : AstNode) : Option AstNode :=
  match action.children with
  | [] => none
  | verb :: adverbs =>
      if adverbs.length = 0 then
        if verb.text = "+" then some (.DyadicOp .Plus lhs rhs)
        else if verb.text = "*" then some (.DyadicOp .Times lhs rhs)
        else if verb.text = "-" then some (.DyadicOp .Minus lhs rhs)
        else if verb.text = "<" then some (.DyadicOp .LessThan lhs rhs)
        else if verb.text = "=" then some (.DyadicOp .Equal lhs rhs)
        else if verb.text = ">" then some (.DyadicOp .LargerThan lhs rhs)
        else if verb.text = "%" then some (.DyadicOp .Divide lhs rhs)
        else if verb.text = "^" then some (.DyadicOp .Power lhs rhs)
        else if verb.text = "|" then some (.DyadicOp .Residue lhs rhs)
        else if verb.text = "#" then some (.DyadicOp .Copy lhs rhs)
        else if verb.text = ">." then some (.DyadicOp .LargerOf lhs rhs)
        else if verb.text = ">:" then some (.DyadicOp .LargerOrEqual lhs rhs)
        else if verb.text = "$" then some (.DyadicOp .Shape lhs rhs)
        else none
      else none

/-- `parse_monadic_action` (main.rs lines 161-225): the first child of the
action pair is the verb, the rest are adverbs; dispatch on the verb text with
per-symbol adverb-count validation (failed `assert_eq!` and the catch-all
`panic!` arms are `none`). -/
def parseMonadicAction (action : JPair) (expr : AstNode) : Option AstNode :=
  match action.children with
  | [] => none
  | verb :: adverbs =>
      if verb.text = ">:" then
        if adverbs.length = 0 then some (.MonadicOp .Increment expr) else none
      else if verb.text = "*:" then
        if adverbs.length = 0 then some (.MonadicOp .Square expr) else none
      else if verb.text = "-" then
        if adverbs.length = 0 then some (.MonadicOp .Negate expr)
        else if adverbs.length = 1 then some (.Reduce .Minus expr)
        else none
      else if verb.text = "%" then
        if adverbs.length = 0 then some (.MonadicOp .Reciprocal expr) else none
      else if verb.text = "#" then
        if adverbs.length = 0 then some (.MonadicOp .Tally expr) else none
      else if verb.text = ">." then
        if adverbs.length = 0 then some (.MonadicOp .Ceiling expr)
        else if adverbs.length = 1 then some (.Reduce .LargerOf expr)
        else none
      else if verb.text = "+" then
        match adverbs with
        | [a] => if a.text = "/" then some (.Reduce .Plus expr) else none
        | _ => none
      else if verb.text = "*" then
        match adverbs with
        | [a] => if a.text = "/" then some (.Reduce .Times expr) else none
        | _ => none
      else if verb.text = "$" then
        if adverbs.length = 0 then some (.MonadicOp .ShapeOf expr) else none
      else none

/-- The string delimiter character, the single quote. -/
def quoteChar : Char := Char.ofNat 39

/-- The NUL character rejected by `CString::new`. -/
def nulChar : Char := Char.ofNat 0

/-- The `str.replace` of the `Rule::string` branch (main.rs line 123),
specialised to its arguments: scanning left to right, every doubled
delimiter pair collapses to a single delimiter. -/
def collapseQuotes : List Char → List Char
  | [] => []
  | [c] => [c]
  | c :: c2 :: rest =>
      if c = quoteChar ∧ c2 = quoteChar then quoteChar :: collapseQuotes rest
      else c :: collapseQuotes (c2 :: rest)

/-- `CString::new` (main.rs line 124): fails exactly when the bytes contain
an interior NUL. -/
def cstringNew (cs : List Char) : Option (List Char) :=
  if nulChar ∈ cs then none else some cs

/-- The `Rule::string` branch of `build_ast_from_expr` (main.rs lines
118-125): strip the leading and trailing quote (`&str[1..len-1]`, a panic
when the text is shorter than two characters), collapse doubled quotes,
then `CString::new(..).unwrap()`. -/
def buildString (txt : String) : Option AstNode :=
  if txt.data.length < 2 then none
  else (cstringNew (collapseQuotes ((txt.data.drop 1).dropLast))).map .Str

mutual

/-- `build_ast_from_expr` (main.rs lines 79-128), dispatching on the pair's
rule; missing children (`next().unwrap()` on a spent iterator) and the
catch-all `panic!` arm are `none`. -/
def buildExpr : JPair → Option AstNode
  | .mk .expr _ children =>
      match children with
      | c :: _ => buildExpr c
      | [] => none
  | .mk .monadicExpr _ children =>
      match children with
      | action :: e :: _ => (buildExpr e).bind fun v => parseMonadicAction action v
      | _ => none
  | .mk .dyadicExpr _ children =>
      match children with
      | l :: action :: r :: _ =>
          (buildExpr l).bind fun lv =>
            (buildExpr r).bind fun rv => parseDyadicAction action lv rv
      | _ => none
  | .mk .terms _ children =>
      (buildTermList children).map fun ts =>
        match ts with
        | [t] => t
        | _ => .Terms ts
  | .mk .assgmtExpr _ children =>
      match children with
      | ident :: e :: _ => (buildExpr e).map fun v => .IsGlobal ident.text v
      | _ => none
  | .mk .string txt _ => buildString txt
  | .mk _ _ _ => none
termination_by p => (sizeOf p, 0)

/-- `build_ast_from_term` (main.rs lines 227-255). -/
def buildTerm : JPair → Option AstNode
  | .mk .integer txt _ => buildInteger txt
  | .mk .decimal txt _ => buildDecimal txt
  | .mk .expr txt children => buildExpr (.mk .expr txt children)
  | .mk .ident txt _ => some (.Ident txt)
  | .mk _ _ _ => none
termination_by p => (sizeOf p, 1)

/-- `pair.into_inner().map(build_ast_from_term).collect()` on a `terms`
pair (main.rs lines 100-102), with panics propagated. -/
def buildTermList : List JPair → Option (List AstNode)
  | [] => some []
  | c :: cs =>
      (buildTerm c).bind fun t => (buildTermList cs).map fun ts => t :: ts
termination_by cs => (sizeOf cs, 0)

end

/-- `parse` (main.rs lines 63-77): each top-level `Rule::expr` pair pushes
`Print(build_ast_from_expr(pair))`; every other top-level pair (e.g. `EOI`)
is skipped. -/
def parseProgram : List JPair → Option (List AstNode)
  | [] => some []
  | p :: ps =>
      match p.rule with
      | .expr =>
          (buildExpr p).bind fun e =>
            (parseProgram ps).map fun rest => .Print e :: rest
      | _ => parseProgram ps

end JLang

namespace Calc

/-- Rule labels used by the calculator examples' operator tables. -/
inductive CRule where
  | add | subtract | multiply | divide | modulo | power | unary_minus
  deriving DecidableEq, Repr

/-- Associativity class of an operator group, as declared in the tables:
`Op::infix(_, Left)`, `Op::infix(_, Right)`, or `Op::prefix(_)`. -/
inductive GroupKind where
  | left | right | pre
  deriving DecidableEq, Repr

/-- One `.op(...)` group of a `PrattParser` declaration: a kind and the
operator rules sharing that binding power. -/
structure OpGroup where
  kind : GroupKind
  ops : List CRule
  deriving Repr

/-- A precedence table: groups ordered lowest to highest binding power. -/
abbrev PrecTable := List OpGroup

/-- The `PRATT_PARSER` table of src/examples/pest-calculator/src/main.rs
lines 16-21: (add, subtract) < (multiply, divide, modulo) < prefix
unary_minus. -/
def pestCalcTable : PrecTable :=
  [⟨.left, [.add, .subtract]⟩,
   ⟨.left, [.multiply, .divide, .modulo]⟩,
   ⟨.pre, [.unary_minus]⟩]

/-- The `PRATT_PARSER` table of src/examples/calculator/src/main.rs lines
19-23: (add, subtract) < (multiply, divide) < (power, right-assoc). -/
def calcTable : PrecTable :=
  [⟨.left, [.add, .subtract]⟩,
   ⟨.left, [.multiply, .divide]⟩,
   ⟨.right, [.power]⟩]

/-- Scan for the first non-prefix group containing `r`, rank counted from
`i`. -/
def binPowerGo (r : CRule) : PrecTable → Nat → Option (Nat × GroupKind)
  | [], _ => none
  | g :: gs, i =>
      if r ∈ g.ops ∧ g.kind ≠ .pre then some (i, g.kind) else binPowerGo r gs (i + 1)

/-- Scan for the first prefix group containing `r`, rank counted from `i`. -/
def prePowerGo (r : CRule) : PrecTable → Nat → Option Nat
  | [], _ => none
  | g :: gs, i =>
      if r ∈ g.ops ∧ g.kind = .pre then some i else prePowerGo r gs (i + 1)

/-- Binding power and kind of `r` as a binary operator: position (1-based,
lowest first) of the first non-prefix group containing `r`. -/
def binPower (t : PrecTable) (r : CRule) : Option (Nat × GroupKind) :=
  binPowerGo r t 1

/-- Binding power of `r` as a prefix operator: position of the first prefix
group containing `r`. -/
def prePower (t : PrecTable) (r : CRule) : Option Nat :=
  prePowerGo r t 1

/-- A token of the expression stream fed to the Pratt builder: a primary
carrying its normalized integer value, a nested sub-expression primary
(`Rule::expr`, recursed into), or an operator token. -/
inductive PToken where
  | int (n : Int)
  | subexpr (ts : List PToken)
  | op (r : CRule)
  deriving Repr

/-- The expression tree built by the Pratt builder, before the examples'
`map_infix`/`map_prefix` folds rename operators. -/
inductive PExpr where
  | int (n : Int)
  | unary (r : CRule) (e : PExpr)
  | binOp (r : CRule) (lhs rhs : PExpr)
  deriving DecidableEq, Repr

mutual

/-- Modelled from the spec: pest's `PrattParser::parse` algorithm
(precedence climbing, spec section 4.3) is pest library code absent from
this repository; only the operator tables and the map callbacks are in the
source.  `prattGo fuel toks minPow` parses one expression:
step 1 a registered prefix operator recurses into its operand at the prefix
group's power producing a unary node; step 2 otherwise one primary token is
consumed (nested sub-expressions recurse at threshold 0); steps 3-4 the loop
`prattLoop` folds binary nodes while the next token is an infix operator
with power at least `minPow`, the right operand parsed at the same power for
a right-associative group and power+1 for a left-associative one.  `fuel`
only guarantees termination; every theorem below supplies enough. -/
def prattGo (t : PrecTable) : Nat → List PToken → Nat → Option (PExpr × List PToken)
  | 0, _, _ => none
  | fuel + 1, toks, minPow =>
      let first : Option (PExpr × List PToken) :=
        match toks with
        | .op r :: rest =>
            match prePower t r with
            | some p =>
                (prattGo t fuel rest p).map fun (e, rest') => (.unary r e, rest')
            | none => none
        | .int n :: rest => some (.int n, rest)
        | .subexpr ts :: rest =>
            (prattGo t fuel ts 0).bind fun (e, leftover) =>
              match leftover with
              | [] => some (e, rest)
              | _ => none
        | [] => none
      first.bind fun (lhs, rest) => prattLoop t fuel lhs rest minPow

/-- The infix loop of the precedence-climbing algorithm (spec section 4.3,
steps 3-4); returns as soon as no qualifying infix operator is next. -/
def prattLoop (t : PrecTable) : Nat → PExpr → List PToken → Nat → Option (PExpr × List PToken)
  | 0, _, _, _ => none
  | fuel + 1, lhs, toks, minPow =>
      match toks with
      | .op r :: rest =>
          match binPower t r with
          | some (p, k) =>
              if minPow ≤ p then
                (prattGo t fuel rest (if k = .right then p else p + 1)).bind
                  fun (rhs, rest') => prattLoop t fuel (.binOp r lhs rhs) rest' minPow
              else some (lhs, toks)
          | none => some (lhs, toks)
      | _ => some (lhs, toks)
end

/-- Deep token count, used to pick a sufficient fuel. -/
def tokSize : List PToken → Nat
  | [] => 0
  | .subexpr ts :: rest => 1 + tokSize ts + tokSize rest
  | _ :: rest => 1 + tokSize rest

/-- Top-level entry: parse the whole stream at minimum power 0 and require
it consumed. -/
def prattBuild (t : PrecTable) (toks : List PToken) : Option PExpr :=
  (prattGo t (2 * tokSize toks + 2) toks 0).bind fun (e, rest) =>
    match rest with
    | [] => some e
    | _ => none

/-- The operator enum of src/examples/pest-calculator/src/main.rs lines
64-71. -/
inductive Op where
  | Add | Subtract | Multiply | Divide | Modulo
  deriving DecidableEq, Repr

/-- The expression AST of src/examples/pest-calculator/src/main.rs lines
24-33. -/
inductive Expr where
  | Integer (n : Int)
  | UnaryMinus (e : Expr)
  | BinOp (lhs : Expr) (op : Op) (rhs : Expr)
  deriving DecidableEq, Repr

/-- The rule-to-operator table of `map_infix` (pest-calculator main.rs lines
42-50); an unlisted rule is the `unreachable!` arm. -/
def ruleToOp : CRule → Option Op
  | .add => some .Add
  | .subtract => some .Subtract
  | .multiply => some .Multiply
  | .divide => some .Divide
  | .modulo => some .Modulo
  | _ => none

/-- The `map_primary`/`map_infix`/`map_prefix` folds of `parse_expr`
(pest-calculator main.rs lines 35-62) applied to the built tree: infix
rules become `Expr::BinOp`, `unary_minus` becomes `Expr::UnaryMinus`,
anything else is an `unreachable!` arm. -/
def exprOfPExpr : PExpr → Option Expr
  | .int n => some (.Integer n)
  | .unary .unary_minus e => (exprOfPExpr e).map .UnaryMinus
  | .unary _ _ => none
  | .binOp r l rr =>
      (ruleToOp r).bind fun op =>
        (exprOfPExpr l).bind fun l' =>
          (exprOfPExpr rr).map fun r' => .BinOp l' op r'

/-- `parse_expr` of src/examples/pest-calculator/src/main.rs: the Pratt
build over `PRATT_PARSER`'s table with the example's fold callbacks. -/
def parse_expr (toks : List PToken) : Option Expr :=
  (prattBuild pestCalcTable toks).bind exprOfPExpr

end Calc

namespace JLang

theorem isDigit_excludes (c : Char) (h : c.isDigit = true) :
    c ≠ '_' ∧ c ≠ '+' ∧ c ≠ '-' := by
  refine ⟨?_, ?_, ?_⟩ <;> · rintro rfl; exact absurd h (by decide)

theorem parseI32_digits (d : Char) (rest : List Char)
    (hdig : (d :: rest).all Char.isDigit = true)
    (hrange : digitsNat (d :: rest) ≤ 2147483647) :
    parseI32 (String.mk (d :: rest)) = some (digitsNat (d :: rest) : Int) := by
  have hd : d.isDigit = true := by
    have := hdig
    simp [List.all_cons] at this
    exact this.1
  obtain ⟨-, h2, h3⟩ := isDigit_excludes d hd
  simp only [parseI32, parseI32Core]
  rw [if_neg h2, if_neg h3, if_pos ⟨List.cons_ne_nil d rest, hdig⟩, if_neg (by decide),
    if_pos hrange]

theorem parseF64Mag_sign (cs : List Char) (b : Bool) (f : F64)
    (h : parseF64Mag cs b = some f) : f.neg = b := by
  simp only [parseF64Mag] at h
  split at h
  · exact absurd h (by simp)
  · rw [Option.map_eq_some'] at h
    obtain ⟨e, -, rfl⟩ := h
    rfl

theorem parseF64_sign (cs : List Char) (f : F64)
    (hm : ∀ rest, cs ≠ '-' :: rest)
    (h : parseF64 (String.mk cs) = some f) : f.neg = false := by
  match cs with
  | [] => exact absurd h (by simp [parseF64])
  | c :: rest =>
      simp only [parseF64] at h
      rw [if_neg (by intro hc; exact hm rest (by rw [hc]))] at h
      split at h
      · exact parseF64Mag_sign _ _ _ h
      · exact parseF64Mag_sign _ _ _ h

theorem collapseQuotes_quotefree (a : List Char) (ha : quoteChar ∉ a) :
    collapseQuotes a = a := by
  match a with
  | [] => rfl
  | [c] => rfl
  | c :: c2 :: rest =>
      have hc : c ≠ quoteChar := fun hh => ha (by simp [hh])
      rw [collapseQuotes, if_neg (fun hh => hc hh.1)]
      have : quoteChar ∉ c2 :: rest := fun hh => ha (List.mem_cons_of_mem c hh)
      rw [collapseQuotes_quotefree (c2 :: rest) this]

theorem collapseQuotes_double (a b : List Char) (ha : quoteChar ∉ a) :
    collapseQuotes (a ++ quoteChar :: quoteChar :: b)
      = a ++ quoteChar :: collapseQuotes b := by
  match a with
  | [] => simp [collapseQuotes]
  | [c] =>
      have hc : c ≠ quoteChar := fun hh => ha (by simp [hh])
      simp only [List.cons_append, List.nil_append]
      rw [collapseQuotes, if_neg (fun hh => hc hh.1)]
      simp [collapseQuotes]
  | c :: c2 :: rest =>
      have hc : c ≠ quoteChar := fun hh => ha (by simp [hh])
      have hrest : quoteChar ∉ c2 :: rest := fun hh => ha (List.mem_cons_of_mem c hh)
      simp only [List.cons_append]
      rw [collapseQuotes, if_neg (fun hh => hc hh.1)]
      have := collapseQuotes_double (c2 :: rest) b hrest
      simp only [List.cons_append] at this
      rw [this]

/-- C3 counterexample: the claim says normalizing the text "1_000_000"
yields the integer 1000000, but `istr.parse::<i32>()` rejects interior
underscores, so the `Rule::integer` branch panics on that text instead. -/
theorem integer_separator_counterexample :
    buildInteger "1_000_000" = none
    ∧ buildInteger "1_000_000" ≠ some (AstNode.Integer 1000000) := by
  have h : buildInteger "1_000_000" = none := rfl
  exact ⟨h, by rw [h]; simp⟩

/-- C3 (amended): normalization treats an optional leading `_` sentinel as
negation and requires the remaining characters to be plain ASCII digits;
interior underscore separators are not filtered out and make normalization
fail.  Normalizing "_5" yields -5. -/
theorem integer_sentinel_negation (ds : List Char) (hne : ds ≠ [])
    (hdig : ds.all Char.isDigit = true) (hrange : digitsNat ds ≤ 2147483647) :
    buildInteger (String.mk ('_' :: ds)) = some (.Integer (-(digitsNat ds : Int)))
    ∧ buildInteger (String.mk ds) = some (.Integer (digitsNat ds : Int))
    ∧ buildInteger "_5" = some (.Integer (-5)) := by
  cases ds with
  | nil => exact absurd rfl hne
  | cons d rest =>
      have hd : d.isDigit = true := by
        have h := hdig
        simp only [List.all_cons, Bool.and_eq_true] at h
        exact h.1
      obtain ⟨h1, -, -⟩ := isDigit_excludes d hd
      refine ⟨?_, ?_, rfl⟩
      · show ((parseI32 (String.mk (d :: rest))).bind fun n =>
            if n = -2147483648 then none else some (AstNode.Integer (-1 * n)))
            = some (AstNode.Integer (-(digitsNat (d :: rest) : Int)))
        rw [parseI32_digits d rest hdig hrange, Option.some_bind,
          if_neg (show ¬((digitsNat (d :: rest) : Int) = -2147483648) by omega)]
        have hneg : (-1 : Int) * (digitsNat (d :: rest) : Int)
            = -(digitsNat (d :: rest) : Int) := by ring
        rw [hneg]
      · simp only [buildInteger]
        rw [if_neg h1, parseI32_digits d rest hdig hrange]
        rfl

/-- C4: a monadic application of the verb `-` yields `Negate` with 0
adverbs, `Reduce(Minus)` with exactly 1 adverb, and aborts with the
unsupported-adverb panic with 2 or more adverbs. -/
theorem monadic_minus_adverb_dispatch (r : JRule) (t : String) (vp : JPair)
    (adverbs : List JPair) (e : AstNode) (hv : vp.text = "-") :
    (adverbs.length = 0 → parseMonadicAction (.mk r t (vp :: adverbs)) e
        = some (.MonadicOp .Negate e))
    ∧ (adverbs.length = 1 → parseMonadicAction (.mk r t (vp :: adverbs)) e
        = some (.Reduce .Minus e))
    ∧ (2 ≤ adverbs.length → parseMonadicAction (.mk r t (vp :: adverbs)) e
        = none) := by
  obtain ⟨vr, vt, vc⟩ := vp
  simp only [JPair.text] at hv
  subst hv
  refine ⟨fun h0 => ?_, fun hone => ?_, fun h2 => ?_⟩
  · rw [List.length_eq_zero.mp h0]
    rfl
  · obtain ⟨a1, rfl⟩ := List.length_eq_one.mp hone
    rfl
  · rcases adverbs with - | ⟨a1, - | ⟨a2, rest⟩⟩
    · simp at h2
    · simp at h2
    · rfl

/-- C5: a dyadic verb application with a non-empty adverb list aborts with
the adverb assertion before the verb symbol is even inspected, for every
verb symbol. -/
theorem dyadic_adverbs_rejected (r : JRule) (t : String) (vp : JPair)
    (adverbs : List JPair) (lhs rhs : AstNode) (h : adverbs ≠ []) :
    parseDyadicAction (.mk r t (vp :: adverbs)) lhs rhs = none := by
  simp only [parseDyadicAction, JPair.children]
  rw [if_neg]
  simpa using h

/-- C6: the decimal normalizer never produces a negative zero: on any token
whose mantissa does not start with a minus glyph (true of all grammar
tokens, where negation is the `_` sentinel), a zero magnitude forces a
positive sign bit; concretely "0.0e+0" and "_0.0" both normalize to
positive 0.0. -/
theorem float_no_negative_zero (s : String) (f : F64)
    (hs : noMinusMantissa s = true)
    (h : buildDecimal s = some (.DoublePrecisionFloat f)) :
    (f.mag = 0 → f.neg = false)
    ∧ buildDecimal "0.0e+0" = some (.DoublePrecisionFloat ⟨false, 0⟩)
    ∧ buildDecimal "_0.0" = some (.DoublePrecisionFloat ⟨false, 0⟩) := by
  refine ⟨fun hz => ?_, ?_, ?_⟩
  · cases s with
    | mk cs =>
        cases cs with
        | nil => exact absurd h (by simp [buildDecimal])
        | cons c rest =>
            simp only [buildDecimal] at h
            by_cases hc : c = '_'
            · rw [if_pos hc] at h
              rw [Option.map_eq_some'] at h
              obtain ⟨f0, hp, heq⟩ := h
              have heq2 : negIfNonzero f0 = f := by
                exact AstNode.DoublePrecisionFloat.inj heq
              by_cases hm0 : f0.mag = 0
              · rw [negIfNonzero, if_neg (by simpa using hm0)] at heq2
                subst heq2
                refine parseF64_sign rest f0 ?_ hp
                intro r' hr'
                rw [hc, hr'] at hs
                exact absurd hs (by simp [noMinusMantissa])
              · exfalso
                rw [negIfNonzero, if_pos (by simpa using hm0)] at heq2
                apply hm0
                rw [← hz, ← heq2]
            · rw [if_neg hc] at h
              rw [Option.map_eq_some'] at h
              obtain ⟨f0, hp, heq⟩ := h
              have heq2 : f0 = f := AstNode.DoublePrecisionFloat.inj heq
              subst heq2
              refine parseF64_sign (c :: rest) f0 ?_ hp
              intro r' hr'
              rw [hr'] at hs
              exact absurd hs (by simp [noMinusMantissa])
  · simp [buildDecimal, parseF64, parseF64Mag, parseExpSuffix, digitsNat, negIfNonzero]
  · simp [buildDecimal, parseF64, parseF64Mag, parseExpSuffix, digitsNat, negIfNonzero]

/-- C7: a `terms` pair with exactly one compiled element yields that element
directly, never wrapped; with zero or two-or-more elements the compiled
elements are wrapped in a `Terms` node in source order. -/
theorem singleton_terms_flattened (txt : String) (children : List JPair)
    (ts : List AstNode) (h : buildTermList children = some ts) :
    (∀ t, ts = [t] → buildExpr (.mk .terms txt children) = some t)
    ∧ (ts.length ≠ 1 → buildExpr (.mk .terms txt children) = some (.Terms ts)) := by
  constructor
  · rintro t rfl
    simp [buildExpr, h]
  · intro hlen
    match ts, hlen with
    | [], _ => simp [buildExpr, h]
    | t1 :: t2 :: rest, _ => simp [buildExpr, h]
    | [t], hl => exact absurd rfl hl

/-- C8: string compilation strips exactly one leading and one trailing
delimiter and collapses every doubled delimiter pair in the body: a token
whose body is a''b stores the string a'b. -/
theorem string_unescaping (a b : List Char) (haq : quoteChar ∉ a)
    (hbq : quoteChar ∉ b) (han : nulChar ∉ a) (hbn : nulChar ∉ b) :
    buildString (String.mk (quoteChar :: ((a ++ quoteChar :: quoteChar :: b) ++ [quoteChar])))
      = some (.Str (a ++ quoteChar :: b))
    ∧ buildString "'a''b'" = some (.Str ['a', quoteChar, 'b']) := by
  refine ⟨?_, rfl⟩
  simp only [buildString]
  rw [if_neg (by simp; omega)]
  have hdrop :
      (((quoteChar :: ((a ++ quoteChar :: quoteChar :: b) ++ [quoteChar])).drop 1).dropLast)
        = a ++ quoteChar :: quoteChar :: b := by
    have hstep :
        (quoteChar :: ((a ++ quoteChar :: quoteChar :: b) ++ [quoteChar])).drop 1
          = (a ++ quoteChar :: quoteChar :: b) ++ [quoteChar] := rfl
    rw [hstep, List.dropLast_concat]
  rw [hdrop, collapseQuotes_double a b haq, collapseQuotes_quotefree b hbq, cstringNew]
  rw [if_neg (by simp [han, hbn]; decide)]
  rfl

/-- C9: every element of the AST list returned by `parse` is a `Print` node
wrapping the compiled expression; a compiled expression is never returned
bare at the top level. -/
theorem toplevel_statements_printed (ps : List JPair) (ast : List AstNode)
    (h : parseProgram ps = some ast) : ∀ n ∈ ast, ∃ e, n = .Print e := by
  induction ps generalizing ast with
  | nil =>
      simp only [parseProgram, Option.some.injEq] at h
      subst h
      intro n hn
      exact absurd hn (List.not_mem_nil n)
  | cons p ps ih =>
      simp only [parseProgram] at h
      split at h
      · rw [Option.bind_eq_some] at h
        obtain ⟨e, he, h2⟩ := h
        rw [Option.map_eq_some'] at h2
        obtain ⟨rest, hrest, rfl⟩ := h2
        intro n hn
        rcases List.mem_cons.mp hn with rfl | hn2
        · exact ⟨e, rfl⟩
        · exact ih rest hrest n hn2
      · exact ih ast h

/-- C10: compiling a string literal token aborts (the `CString::new` unwrap
fails) exactly when the unescaped body contains an interior NUL; every
NUL-free body constructs a `Str` node. -/
theorem string_nul_aborts (txt : String) (cs : List JPair)
    (h2 : 2 ≤ txt.data.length) :
    (nulChar ∈ collapseQuotes ((txt.data.drop 1).dropLast) →
        buildExpr (.mk .string txt cs) = none)
    ∧ (nulChar ∉ collapseQuotes ((txt.data.drop 1).dropLast) →
        buildExpr (.mk .string txt cs)
          = some (.Str (collapseQuotes ((txt.data.drop 1).dropLast)))) := by
  have hlen : ¬ txt.data.length < 2 := by omega
  constructor
  · intro hmem
    simp only [buildExpr, buildString, cstringNew]
    rw [if_neg hlen, if_pos hmem]
    rfl
  · intro hmem
    simp only [buildExpr, buildString, cstringNew]
    rw [if_neg hlen, if_neg hmem]
    rfl

theorem integer_sentinel_negation_witness :
    buildInteger (String.mk ('_' :: ['5'])) = some (.Integer (-(digitsNat ['5'] : Int)))
    ∧ buildInteger (String.mk ['5']) = some (.Integer (digitsNat ['5'] : Int))
    ∧ buildInteger "_5" = some (.Integer (-5)) :=
  integer_sentinel_negation ['5'] (by decide) (by decide) (by decide)

theorem monadic_minus_adverb_dispatch_witness :
    parseMonadicAction (.mk .verb "x" (JPair.mk .verb "-" [] :: [])) (.Integer 7)
      = some (.MonadicOp .Negate (.Integer 7)) :=
  (monadic_minus_adverb_dispatch .verb "x" (.mk .verb "-" []) [] (.Integer 7) rfl).1 rfl

theorem dyadic_adverbs_rejected_witness :
    parseDyadicAction
        (.mk .verb "x" (JPair.mk .verb "+" [] :: [JPair.mk .adverb "/" []]))
        (.Integer 1) (.Integer 2) = none :=
  dyadic_adverbs_rejected .verb "x" (.mk .verb "+" []) [.mk .adverb "/" []]
    (.Integer 1) (.Integer 2) (by simp)

theorem float_no_negative_zero_witness :
    ((({ neg := false, mag := 0 } : F64).mag = 0
        → ({ neg := false, mag := 0 } : F64).neg = false))
    ∧ buildDecimal "0.0e+0" = some (.DoublePrecisionFloat ⟨false, 0⟩)
    ∧ buildDecimal "_0.0" = some (.DoublePrecisionFloat ⟨false, 0⟩) :=
  float_no_negative_zero "_0.0" ⟨false, 0⟩ (by decide)
    (by simp [buildDecimal, parseF64, parseF64Mag, parseExpSuffix, digitsNat, negIfNonzero])

theorem singleton_terms_flattened_witness :
    buildExpr (.mk .terms "x" [JPair.mk .integer "5" []]) = some (.Integer 5) :=
  (singleton_terms_flattened "x" [JPair.mk .integer "5" []] [.Integer 5]
    (by simp [buildTermList, buildTerm, buildInteger, parseI32, parseI32Core, digitsNat])).1
    (.Integer 5) rfl

theorem string_unescaping_witness :
    buildString
        (String.mk (quoteChar :: ((['a'] ++ quoteChar :: quoteChar :: ['b']) ++ [quoteChar])))
      = some (.Str (['a'] ++ quoteChar :: ['b']))
    ∧ buildString "'a''b'" = some (.Str ['a', quoteChar, 'b']) :=
  string_unescaping ['a'] ['b'] (by decide) (by decide) (by decide) (by decide)

theorem toplevel_statements_printed_witness :
    ∃ e, AstNode.Print (.Integer 5) = AstNode.Print e :=
  toplevel_statements_printed
    [JPair.mk .expr "" [JPair.mk .terms "" [JPair.mk .integer "5" []]]]
    [.Print (.Integer 5)]
    (by simp [parseProgram, JPair.rule, buildExpr, buildTermList, buildTerm, buildInteger,
      parseI32, parseI32Core, digitsNat])
    (AstNode.Print (.Integer 5)) (by simp)

theorem string_nul_aborts_witness :
    buildExpr (.mk .string (String.mk [quoteChar, nulChar, quoteChar]) []) = none :=
  (string_nul_aborts (String.mk [quoteChar, nulChar, quoteChar]) [] (by decide)).1
    (by decide)

end JLang

namespace Calc

/-- C1: with the pest-calculator table the multiplicative group binds
tighter than the additive group: for any additive operator `ao` and any
multiplicative operator `mo`, the stream `a ao b mo c` builds
`BinOp(ao, a, BinOp(mo, b, c))`; in particular the stream for `1 + 2 * 3`
builds `BinOp(+, 1, BinOp(*, 2, 3))` and never the left-grouped
`BinOp(*, BinOp(+, 1, 2), 3)`. -/
theorem pratt_multiplicative_binds_tighter (a b c : Int) (ao mo : CRule)
    (ha : ao = .add ∨ ao = .subtract)
    (hm : mo = .multiply ∨ mo = .divide ∨ mo = .modulo) :
    parse_expr [.int a, .op ao, .int b, .op mo, .int c]
      = ((ruleToOp ao).bind fun aop => (ruleToOp mo).map fun mop =>
          .BinOp (.Integer a) aop (.BinOp (.Integer b) mop (.Integer c)))
    ∧ parse_expr [.int 1, .op .add, .int 2, .op .multiply, .int 3]
        ≠ some (.BinOp (.BinOp (.Integer 1) .Add (.Integer 2)) .Multiply (.Integer 3)) := by
  constructor
  · rcases ha with rfl | rfl <;> rcases hm with rfl | rfl | rfl <;>
      · simp only [parse_expr, prattBuild, tokSize]
        rfl
  · have h : parse_expr [.int 1, .op .add, .int 2, .op .multiply, .int 3]
        = some (.BinOp (.Integer 1) .Add (.BinOp (.Integer 2) .Multiply (.Integer 3))) := by
      simp only [parse_expr, prattBuild, tokSize]
      rfl
    rw [h]
    simp

theorem pratt_multiplicative_binds_tighter_witness :
    parse_expr [.int 1, .op .add, .int 2, .op .multiply, .int 3]
      = ((ruleToOp .add).bind fun aop => (ruleToOp .multiply).map fun mop =>
          .BinOp (.Integer 1) aop (.BinOp (.Integer 2) mop (.Integer 3)))
    ∧ parse_expr [.int 1, .op .add, .int 2, .op .multiply, .int 3]
        ≠ some (.BinOp (.BinOp (.Integer 1) .Add (.Integer 2)) .Multiply (.Integer 3)) :=
  pratt_multiplicative_binds_tighter 1 2 3 .add .multiply (Or.inl rfl) (Or.inl rfl)

/-- C2: equal-binding-power chains resolve by associativity: two operators
of the same left-associative group chain left-first, so `a o1 b o2 c`
builds `BinOp(o2, BinOp(o1, a, b), c)` (e.g. `a-b-c` = `(a-b)-c`), while
the right-associative power group of the calculator table chains
right-first: `a^b^c` builds `BinOp(^, a, BinOp(^, b, c))`. -/
theorem pratt_equal_power_associativity (a b c : Int) (o1 o2 : CRule)
    (hsame : ((o1 = .add ∨ o1 = .subtract) ∧ (o2 = .add ∨ o2 = .subtract))
      ∨ ((o1 = .multiply ∨ o1 = .divide ∨ o1 = .modulo)
          ∧ (o2 = .multiply ∨ o2 = .divide ∨ o2 = .modulo))) :
    parse_expr [.int a, .op o1, .int b, .op o2, .int c]
      = ((ruleToOp o1).bind fun p1 => (ruleToOp o2).map fun p2 =>
          .BinOp (.BinOp (.Integer a) p1 (.Integer b)) p2 (.Integer c))
    ∧ prattBuild calcTable [.int a, .op .power, .int b, .op .power, .int c]
      = some (.binOp .power (.int a) (.binOp .power (.int b) (.int c))) := by
  constructor
  · rcases hsame with ⟨h1, h2⟩ | ⟨h1, h2⟩
    · rcases h1 with rfl | rfl <;> rcases h2 with rfl | rfl <;>
        · simp only [parse_expr, prattBuild, tokSize]
          rfl
    · rcases h1 with rfl | rfl | rfl <;> rcases h2 with rfl | rfl | rfl <;>
        · simp only [parse_expr, prattBuild, tokSize]
          rfl
  · simp only [prattBuild, tokSize]
    rfl

theorem pratt_equal_power_associativity_witness :
    parse_expr [.int 7, .op .subtract, .int 2, .op .subtract, .int 1]
      = ((ruleToOp .subtract).bind fun p1 => (ruleToOp .subtract).map fun p2 =>
          .BinOp (.BinOp (.Integer 7) p1 (.Integer 2)) p2 (.Integer 1))
    ∧ prattBuild calcTable [.int 7, .op .power, .int 2, .op .power, .int 1]
      = some (.binOp .power (.int 7) (.binOp .power (.int 2) (.int 1))) :=
  pratt_equal_power_associativity 7 2 1 .subtract .subtract
    (Or.inl ⟨Or.inr rfl, Or.inr rfl⟩)

end Calc
